import Mathlib

/-!
Shallow embedding of `src/sync.py` (hydrocode-de/downloader_at).

The module mirrors a remote paginated object-storage listing into a local
directory tree.  We embed each of its core functions as a Lean definition:

* `parse_listing`     — one XML listing page decoded into filenames + token
* `fetch_remote_files`— pagination loop followed by a descending sort
* `determine_missing_files` — diff of the catalog against the filesystem
* `download_file`     — one streamed transfer with on-failure cleanup
* `sync_once`         — the whole synchronization pass

The filesystem is modelled as a map from path strings to file contents
(byte lists).  XML decoding itself is external; a `ListingPage` carries the
decoded fields the Python code reads from the document (the `Key` text of
each `Contents` entry — `none` for an absent key node or absent text —, the
`IsTruncated` text, and the `NextContinuationToken` text).  Network and
stream behaviour of one transfer is abstracted by an `Outcome`: a full
success with the served bytes, a failure before the destination is opened
(connection error or non-success status), or a failure after some bytes
were written.  Directory creation (`mkdir(parents=True, exist_ok=True)`)
has no observable effect on the path-keyed filesystem map and is a no-op.
-/

/-- Filesystem state: each path maps to the bytes stored there, if present. -/
def FS : Type := String → Option (List Nat)

/-- Writing a file (Python `open("wb")` + writes): replaces any previous content. -/
def FS.write (fs : FS) (p : String) (c : List Nat) : FS :=
  fun q => if q = p then some c else fs q

/-- Deleting a file (Python `Path.unlink`). -/
def FS.unlink (fs : FS) (p : String) : FS :=
  fun q => if q = p then none else fs q

/-- Existence check (Python `Path.exists`). -/
def FS.existsAt (fs : FS) (p : String) : Bool :=
  (fs p).isSome

/-- The empty filesystem. -/
def emptyFS : FS := fun _ => none

/-- Module constant `RESOURCE_PREFIX` from `sync.py`. -/
def RESOURCE_PREFIX : String := "resources/nwp-v1-1h-2500m/filelisting/"

/-- Python slice `s[a:b]` (character-wise, clamped like Python slicing). -/
def pySlice (s : String) (a b : Nat) : String :=
  String.mk ((s.data.drop a).take (b - a))

/-- Python `key.startswith(p)`. -/
def startsWithPy (s p : String) : Bool :=
  p.data.isPrefixOf s.data

/-- Python `key.endswith(p)`. -/
def endsWithPy (s p : String) : Bool :=
  p.data.isSuffixOf s.data

/-- Python `key.split("/")[-1]`: the characters after the last slash. -/
def baseNamePy (s : String) : String :=
  String.mk ((s.data.reverse.takeWhile (fun c => c != '/')).reverse)

/-- Python `s.lower()` (ASCII case folding; the flags compared are ASCII). -/
def lowerPy (s : String) : String :=
  String.mk (s.data.map Char.toLower)

/-- Decoded fields of one listing response body, as read by `parse_listing`. -/
structure ListingPage where
  contents : List (Option String)
  isTruncated : Option String
  nextContinuationToken : Option String

/-- The `for entry in root.findall("s3:Contents")` loop of `parse_listing`:
skip entries with a missing or empty key, keep keys ending in `.nc` and
starting with the resource prefix, stripped to their base name. -/
def parseFiles : List (Option String) → List String
  | [] => []
  | entry :: rest =>
    match entry with
    | none => parseFiles rest
    | some key =>
      if key.data = [] then parseFiles rest
      else if ¬ (endsWithPy key ".nc" = true) then parseFiles rest
      else if startsWithPy key RESOURCE_PREFIX = true then
        baseNamePy key :: parseFiles rest
      else parseFiles rest

/-- Embedding of `parse_listing`: filenames plus the continuation token, which is kept
only when the `IsTruncated` text (default `"false"`) lower-cases to
`"true"`. -/
def parse_listing (page : ListingPage) : List String × Option String :=
  let files := parseFiles page.contents
  let is_truncated := page.isTruncated.getD "false"
  let next_token := page.nextContinuationToken
  if lowerPy is_truncated = "true" then (files, next_token) else (files, none)

/-- Python truthiness of the continuation token (`if not continuation: break`):
`None` and the empty string both end the pagination loop. -/
def tokenTruthy : Option String → Bool
  | none => false
  | some t => ¬ t.data = []

/-- The pagination loop of `fetch_remote_files`: the origin's successive
response bodies are consumed in order until a page yields no (truthy)
continuation token. -/
def fetchPages : List ListingPage → List String
  | [] => []
  | page :: rest =>
    let parsed := parse_listing page
    if tokenTruthy parsed.2 then parsed.1 ++ fetchPages rest
    else parsed.1

/-- Lexicographic comparison of character lists by code point, the order
Python uses to compare `str` values. -/
def lexLe : List Char → List Char → Bool
  | [], _ => true
  | _ :: _, [] => false
  | a :: as, b :: bs =>
    if a < b then true
    else if b < a then false
    else lexLe as bs

/-- The descending order used to mirror `files.sort(reverse=True)`:
`descRel a b` holds when `a` is at least `b`. -/
def descRel (a b : String) : Prop :=
  lexLe b.data a.data = true

instance : DecidableRel descRel := fun a b => by
  unfold descRel; infer_instance

/-- Python `files.sort(reverse=True)`: descending sort.  On a list of
strings sorted by themselves this is exactly Python's result (elements
comparing equal are identical, so stability is unobservable). -/
def sortDesc (l : List String) : List String :=
  l.insertionSort descRel

/-- Embedding of `fetch_remote_files`: accumulate all pages, then sort descending. -/
def fetch_remote_files (pages : List ListingPage) : List String :=
  sortDesc (fetchPages pages)

/-- Python `Path.__truediv__`: joining an absolute component restarts the
path, joining an empty component is a no-op.  (`.` segments never arise
from the slices used here and are not modelled.) -/
def pathJoin (a b : String) : String :=
  if b.data = [] then a
  else if b.data.head? = some '/' then b
  else a ++ "/" ++ b

/-- Destination path of one filename:
`DATA_DIR / f"{year}_{month}" / filename` with `year = filename[4:8]`,
`month = filename[8:10]`. -/
def localPath (filename : String) : String :=
  pathJoin (pathJoin "/data" (pySlice filename 4 8 ++ "_" ++ pySlice filename 8 10)) filename

/-- Embedding of `determine_missing_files`: keep the filenames whose destination does
not exist, in catalog order. -/
def determine_missing_files (fs : FS) : List String → List String
  | [] => []
  | filename :: rest =>
    if FS.existsAt fs (localPath filename) = true then determine_missing_files fs rest
    else filename :: determine_missing_files fs rest

/-- Abstracted behaviour of one streamed transfer. -/
inductive Outcome where
  | success (content : List Nat)
  | failEarly
  | failMid (written : List Nat)

/-- Whether the outcome raises (any branch of the `except` clause). -/
def Outcome.fails : Outcome → Bool
  | .success _ => false
  | .failEarly => true
  | .failMid _ => true

/-- Embedding of `download_file`: on success the destination holds the served bytes; on
failure the `except` branch removes the destination if it exists
(`if destination.exists(): destination.unlink(...)`) and re-raises.  A
mid-stream failure has already opened the destination with `"wb"`
(truncating it) and written some bytes.  The second component is `true`
iff the call returns without raising. -/
def download_file (fs : FS) (filename : String) (o : Outcome) : FS × Bool :=
  let destination := localPath filename
  match o with
  | .success content => (FS.write fs destination content, true)
  | .failEarly =>
    (if FS.existsAt fs destination = true then FS.unlink fs destination else fs, false)
  | .failMid written =>
    let fs1 := FS.write fs destination written
    (if FS.existsAt fs1 destination = true then FS.unlink fs1 destination else fs1, false)

/-- The download loop of `sync_once`; `oc k` is the behaviour of the
`k`-th transfer of the pass.  `none` as second component models the
exception propagating out of `sync_once` (the partial result list is
discarded). -/
def downloadAll (fs : FS) (files : List String) (oc : Nat → Outcome) (k : Nat) :
    FS × Option (List String) :=
  match files with
  | [] => (fs, some [])
  | f :: rest =>
    let step := download_file fs f (oc k)
    if step.2 = true then
      match downloadAll step.1 rest oc (k + 1) with
      | (fs2, some l) => (fs2, some (f :: l))
      | (fs2, none) => (fs2, none)
    else (step.1, none)

/-- Embedding of `sync_once`: fetch the catalog, short-circuit on an empty catalog or
empty diff, otherwise download every missing file in order. -/
def sync_once (fs : FS) (pages : List ListingPage) (oc : Nat → Outcome) :
    FS × Option (List String) :=
  let remote_files := fetch_remote_files pages
  if remote_files.isEmpty then (fs, some [])
  else
    let missing_files := determine_missing_files fs remote_files
    if missing_files.isEmpty then (fs, some [])
    else downloadAll fs missing_files oc 0

/-- The diff a pass over `pages` computes from filesystem `fs`. -/
def syncMissing (fs : FS) (pages : List ListingPage) : List String :=
  determine_missing_files fs (fetch_remote_files pages)

/-- Spec-side reading of the Listing Parser contract: the filenames are
exactly the entries whose key is present and non-empty, ends with the
configured extension and starts with the configured resource prefix, each
stripped to its base name, in page order. -/
def parseFilesSpec (contents : List (Option String)) : List String :=
  contents.filterMap (fun entry => entry.bind (fun key =>
    if key.data ≠ [] ∧ endsWithPy key ".nc" = true ∧ startsWithPy key RESOURCE_PREFIX = true
    then some (baseNamePy key) else none))

/-- Spec-side reading of the LocalArchiveLayout rule: the literal
concatenation `<data_root>/<year>_<month>/<filename>` with `year` the
characters at positions 4–7 and `month` those at positions 8–9. -/
def layoutPath (f : String) : String :=
  "/data/" ++ pySlice f 4 8 ++ "_" ++ pySlice f 8 10 ++ "/" ++ f

/-- A well-formed remote filename per the data model: non-empty and free
of path separators (every catalog entry is a base name, so this holds for
everything the fetcher produces). -/
def goodName (f : String) : Prop :=
  f.data ≠ [] ∧ '/' ∉ f.data

/-- A concrete remote listing: one non-truncated page carrying the two
files of the spec's concrete scenario. -/
def scenarioPages : List ListingPage :=
  [⟨[some "resources/nwp-v1-1h-2500m/filelisting/nwp_2024010100.nc",
     some "resources/nwp-v1-1h-2500m/filelisting/nwp_2023120100.nc"], some "false", none⟩]

/-- Transfer behaviour where every download succeeds. -/
def allOk : Nat → Outcome := fun _ => Outcome.success [1]

/-- A listing page with two distinct keys sharing one base name. -/
def dupKeyPage : ListingPage :=
  ⟨[some "resources/nwp-v1-1h-2500m/filelisting/nwp_2024010100.nc",
    some "resources/nwp-v1-1h-2500m/filelisting/extra/nwp_2024010100.nc"], some "false", none⟩

/-- Transfer behaviour where the first download succeeds and every later
one fails before the destination is opened. -/
def okThenFail : Nat → Outcome := fun n => if n = 0 then Outcome.success [1] else Outcome.failEarly

/- ### Order lemmas for the descending sort -/

theorem lexLe_total : ∀ a b : List Char, lexLe a b = true ∨ lexLe b a = true
  | [], _ => Or.inl rfl
  | _ :: _, [] => Or.inr rfl
  | a :: as, b :: bs => by
    by_cases hab : a < b
    · left; simp [lexLe, hab]
    · by_cases hba : b < a
      · right; simp [lexLe, hba]
      · rcases lexLe_total as bs with h | h
        · left; simp [lexLe, hab, hba, h]
        · right; simp [lexLe, hab, hba, h]

theorem lexLe_trans : ∀ a b c : List Char,
    lexLe a b = true → lexLe b c = true → lexLe a c = true
  | [], _, _, _, _ => rfl
  | _ :: _, [], _, h1, _ => by simp [lexLe] at h1
  | _ :: _, _ :: _, [], _, h2 => by simp [lexLe] at h2
  | a :: as, b :: bs, c :: cs, h1, h2 => by
    simp only [lexLe] at h1 h2 ⊢
    by_cases hab : a < b
    · by_cases hbc : b < c
      · simp [lt_trans hab hbc]
      · by_cases hcb : c < b
        · simp [hbc, hcb] at h2
        · have hbc2 : b = c := ((lt_trichotomy b c).resolve_left hbc).resolve_right hcb
          simp [hbc2 ▸ hab]
    · by_cases hba : b < a
      · simp [hab, hba] at h1
      · have hab2 : a = b := ((lt_trichotomy a b).resolve_left hab).resolve_right hba
        subst hab2
        by_cases hbc : a < c
        · simp [hbc]
        · by_cases hcb : c < a
          · simp [hbc, hcb] at h2
          · simp only [if_neg hbc, if_neg hcb] at h2 ⊢
            simp only [if_neg hab] at h1
            exact lexLe_trans as bs cs h1 h2

theorem lexLe_antisymm : ∀ a b : List Char,
    lexLe a b = true → lexLe b a = true → a = b
  | [], [], _, _ => rfl
  | [], _ :: _, _, h2 => by simp [lexLe] at h2
  | _ :: _, [], h1, _ => by simp [lexLe] at h1
  | a :: as, b :: bs, h1, h2 => by
    simp only [lexLe] at h1 h2
    by_cases hab : a < b
    · simp [hab, lt_asymm hab] at h2
    · by_cases hba : b < a
      · simp [hab, hba] at h1
      · have hab2 : a = b := ((lt_trichotomy a b).resolve_left hab).resolve_right hba
        subst hab2
        simp only [if_neg hab] at h1 h2
        exact congrArg (a :: ·) (lexLe_antisymm as bs h1 h2)

instance : IsTotal String descRel :=
  ⟨fun a b => (lexLe_total b.data a.data).imp id id⟩

instance : IsTrans String descRel :=
  ⟨fun _ b _ h1 h2 => lexLe_trans _ b.data _ h2 h1⟩

theorem sortDesc_perm (l : List String) : (sortDesc l).Perm l :=
  List.perm_insertionSort descRel l

theorem sortDesc_sorted (l : List String) : (sortDesc l).Pairwise descRel :=
  List.sorted_insertionSort descRel l

theorem sortDesc_mem {a : String} {l : List String} : a ∈ sortDesc l ↔ a ∈ l :=
  (sortDesc_perm l).mem_iff

theorem sortDesc_strict {l : List String} (h : l.Nodup) :
    (sortDesc l).Pairwise (fun a b : String => lexLe a.data b.data = false) := by
  have hs := sortDesc_sorted l
  have hn : (sortDesc l).Nodup := ((sortDesc_perm l).symm).nodup h
  refine (hs.and hn).imp ?_
  rintro a b ⟨hab, hne⟩
  by_contra hcon
  have hab2 : lexLe a.data b.data = true := by
    cases hx : lexLe a.data b.data
    · exact absurd hx hcon
    · rfl
  exact hne (String.ext (lexLe_antisymm a.data b.data hab2 hab))

/- ### Filesystem lemmas -/

theorem FS.write_self (fs : FS) (p : String) (c : List Nat) :
    FS.write fs p c p = some c := by
  simp [FS.write]

theorem FS.write_other (fs : FS) {p q : String} {c : List Nat} (h : q ≠ p) :
    FS.write fs p c q = fs q := by
  simp [FS.write, h]

theorem FS.unlink_self (fs : FS) (p : String) : FS.unlink fs p p = none := by
  simp [FS.unlink]

theorem FS.unlink_other (fs : FS) {p q : String} (h : q ≠ p) :
    FS.unlink fs p q = fs q := by
  simp [FS.unlink, h]

theorem FS.write_isSome (fs : FS) (p q : String) (c : List Nat)
    (h : (fs q).isSome = true) : (FS.write fs p c q).isSome = true := by
  by_cases hq : q = p <;> simp [FS.write, hq, h]

/- ### The diff is a filter -/

theorem determine_missing_eq_filter (fs : FS) :
    ∀ catalog : List String,
      determine_missing_files fs catalog
        = catalog.filter (fun f => ! FS.existsAt fs (localPath f))
  | [] => rfl
  | f :: rest => by
    by_cases h : FS.existsAt fs (localPath f) = true
    · simp [determine_missing_files, h, determine_missing_eq_filter fs rest, List.filter_cons]
    · simp [determine_missing_files, h, determine_missing_eq_filter fs rest, List.filter_cons]

theorem mem_determine_missing {fs : FS} {catalog : List String} {f : String} :
    f ∈ determine_missing_files fs catalog
      ↔ f ∈ catalog ∧ FS.existsAt fs (localPath f) = false := by
  rw [determine_missing_eq_filter]
  simp [List.mem_filter]

/- ### Every parsed filename is a non-empty base name -/

theorem baseNamePy_good {k : String} (h : endsWithPy k ".nc" = true) :
    goodName (baseNamePy k) := by
  have hsuf : (String.data ".nc") <:+ k.data := List.isSuffixOf_iff_suffix.mp h
  obtain ⟨t, ht⟩ := hsuf
  have hrev : k.data.reverse = 'c' :: 'n' :: '.' :: t.reverse := by
    rw [← ht, List.reverse_append]
    rfl
  constructor
  · intro hcon
    have hcon2 : (k.data.reverse.takeWhile (fun c => c != '/')).reverse = [] := hcon
    rw [List.reverse_eq_nil_iff, hrev, List.takeWhile_cons] at hcon2
    simp at hcon2
  · intro hcon
    have hcon2 : ('/' : Char) ∈ (k.data.reverse.takeWhile (fun c => c != '/')).reverse := hcon
    have h1 : ('/' : Char) ∈ k.data.reverse.takeWhile (fun c => c != '/') :=
      List.mem_reverse.mp hcon2
    have h2 := List.mem_takeWhile_imp h1
    simp at h2

theorem parseFiles_good :
    ∀ (c : List (Option String)) {f : String}, f ∈ parseFiles c → goodName f
  | [], _, h => absurd h (List.not_mem_nil _)
  | none :: rest, f, h => parseFiles_good rest h
  | some key :: rest, f, h => by
    simp only [parseFiles] at h
    split_ifs at h with h1 h2 h3
    · exact parseFiles_good rest h
    · rcases List.mem_cons.mp h with h4 | h4
      · subst h4
        exact baseNamePy_good (by simpa using h2)
      · exact parseFiles_good rest h4
    · exact parseFiles_good rest h
    · exact parseFiles_good rest h

theorem parse_listing_fst (page : ListingPage) :
    (parse_listing page).1 = parseFiles page.contents := by
  show (if lowerPy (page.isTruncated.getD "false") = "true"
      then (parseFiles page.contents, page.nextContinuationToken)
      else (parseFiles page.contents, none)).1 = parseFiles page.contents
  split <;> rfl

theorem fetchPages_good :
    ∀ (pages : List ListingPage) {f : String}, f ∈ fetchPages pages → goodName f
  | [], _, h => absurd h (List.not_mem_nil _)
  | page :: rest, f, h => by
    simp only [fetchPages] at h
    split at h
    · rcases List.mem_append.mp h with h1 | h1
      · exact parseFiles_good page.contents (by rwa [parse_listing_fst] at h1)
      · exact fetchPages_good rest h1
    · exact parseFiles_good page.contents (by rwa [parse_listing_fst] at h)

theorem fetch_remote_files_good {pages : List ListingPage} {f : String}
    (h : f ∈ fetch_remote_files pages) : goodName f :=
  fetchPages_good pages (sortDesc_mem.mp h)

/- ### The layout path under well-formed names -/

theorem localPath_eq_layoutPath {f : String} (hg : goodName f) :
    localPath f = layoutPath f := by
  obtain ⟨hne, hsl⟩ := hg
  have hmid : (pySlice f 4 8 ++ "_" ++ pySlice f 8 10).data
      = ((f.data.drop 4).take 4) ++ '_' :: ((f.data.drop 8).take 2) := by
    simp [String.data_append, pySlice]
  have hmidne : ¬ (pySlice f 4 8 ++ "_" ++ pySlice f 8 10).data = [] := by
    rw [hmid]
    intro hcon
    exact List.cons_ne_nil _ _ (List.append_eq_nil.mp hcon).2
  have hmidhd : ¬ (pySlice f 4 8 ++ "_" ++ pySlice f 8 10).data.head? = some '/' := by
    rw [hmid]
    cases hc : (f.data.drop 4).take 4 with
    | nil => simp
    | cons c cs =>
      simp only [List.cons_append, List.head?_cons]
      intro hcon
      have hcmem : c ∈ f.data :=
        List.mem_of_mem_drop (List.mem_of_mem_take (hc ▸ List.mem_cons_self c cs))
      rw [Option.some.injEq] at hcon
      exact hsl (hcon ▸ hcmem)
  have hfhd : ¬ f.data.head? = some '/' := by
    cases hf : f.data with
    | nil => simp
    | cons c cs =>
      simp only [List.head?_cons]
      intro hcon
      rw [Option.some.injEq] at hcon
      exact hsl (hcon ▸ hf ▸ List.mem_cons_self c cs)
  show pathJoin (pathJoin "/data" (pySlice f 4 8 ++ "_" ++ pySlice f 8 10)) f = layoutPath f
  rw [pathJoin, if_neg hne, if_neg hfhd, pathJoin, if_neg hmidne, if_neg hmidhd, layoutPath]
  apply String.ext
  simp [String.data_append, List.append_assoc]

/- ### Behaviour of the download loop -/

theorem downloadAll_some :
    ∀ (files : List String) (fs : FS) (oc : Nat → Outcome) (j : Nat) (fs2 : FS) (l : List String),
      downloadAll fs files oc j = (fs2, some l) →
      l = files
      ∧ (∀ f ∈ files, (fs2 (localPath f)).isSome = true)
      ∧ (∀ p, (fs p).isSome = true → (fs2 p).isSome = true)
  | [], fs, oc, j, fs2, l, h => by
    simp only [downloadAll, Prod.mk.injEq, Option.some.injEq] at h
    obtain ⟨rfl, rfl⟩ := h
    exact ⟨rfl, by simp, fun p hp => hp⟩
  | f :: rest, fs, oc, j, fs2, l, h => by
    simp only [downloadAll] at h
    cases hoc : oc j with
    | success c =>
      rw [hoc] at h
      simp only [download_file, if_pos] at h
      cases hrec : downloadAll (FS.write fs (localPath f) c) rest oc (j + 1) with
      | mk fs3 o3 =>
        rw [hrec] at h
        cases o3 with
        | some l3 =>
          simp only [Prod.mk.injEq, Option.some.injEq] at h
          obtain ⟨rfl, rfl⟩ := h
          obtain ⟨hl3, hmem, hmono⟩ := downloadAll_some rest _ oc (j + 1) fs3 l3 hrec
          refine ⟨by rw [hl3], ?_, ?_⟩
          · intro f2 hf2
            rcases List.mem_cons.mp hf2 with h4 | h4
            · subst h4
              exact hmono _ (by rw [FS.write_self]; rfl)
            · exact hmem f2 h4
          · exact fun p hp => hmono p (FS.write_isSome fs _ p c hp)
        | none => simp at h
    | failEarly =>
      rw [hoc] at h
      simp only [download_file] at h
      simp at h
    | failMid w =>
      rw [hoc] at h
      simp only [download_file] at h
      simp at h

theorem downloadAll_success :
    ∀ (files : List String) (fs : FS) (oc : Nat → Outcome) (j : Nat),
      (∀ i, i < files.length → (oc (j + i)).fails = false) →
      ∃ fs2, downloadAll fs files oc j = (fs2, some files)
  | [], fs, _, _, _ => ⟨fs, rfl⟩
  | f :: rest, fs, oc, j, h => by
    have h0 : (oc j).fails = false := by simpa using h 0 (by simp)
    cases hoc : oc j with
    | success c =>
      obtain ⟨fs2, hrec⟩ := downloadAll_success rest (FS.write fs (localPath f) c) oc (j + 1)
        (fun i hi => by
          have h2 := h (i + 1) (by simpa using Nat.succ_lt_succ hi)
          rwa [show j + (i + 1) = j + 1 + i by omega] at h2)
      refine ⟨fs2, ?_⟩
      simp only [downloadAll, hoc, download_file]
      rw [hrec]
      simp
    | failEarly => rw [hoc] at h0; simp [Outcome.fails] at h0
    | failMid w => rw [hoc] at h0; simp [Outcome.fails] at h0

theorem downloadAll_fail :
    ∀ (files : List String) (fs : FS) (oc : Nat → Outcome) (j k : Nat),
      (files.map localPath).Nodup →
      (∀ f ∈ files, fs (localPath f) = none) →
      k < files.length →
      (∀ i, i < k → (oc (j + i)).fails = false) →
      (oc (j + k)).fails = true →
      ∃ fs2, downloadAll fs files oc j = (fs2, none)
        ∧ (∀ i, i < k → (fs2 (localPath (files.getD i ""))).isSome = true)
        ∧ (∀ i, k ≤ i → i < files.length → fs2 (localPath (files.getD i "")) = none)
        ∧ (∀ p, p ∉ files.map localPath → fs2 p = fs p)
  | [], _, _, _, k, _, _, hk, _, _ => absurd hk (Nat.not_lt_zero k)
  | f :: rest, fs, oc, j, 0, hpaths, hne, hk, _, hfail => by
    rw [Nat.add_zero] at hfail
    have hdest : fs (localPath f) = none := hne f (List.mem_cons_self f rest)
    have hdmem : localPath f ∉ rest.map localPath := by
      rw [List.map_cons, List.nodup_cons] at hpaths
      exact hpaths.1
    have helem : ∀ i, i < (f :: rest).length → fs (localPath ((f :: rest).getD i "")) = none := by
      intro i hi
      rw [List.getD_eq_getElem _ _ hi]
      exact hne _ (List.getElem_mem hi)
    cases hoc : oc j with
    | success c => rw [hoc] at hfail; simp [Outcome.fails] at hfail
    | failEarly =>
      refine ⟨fs, ?_, fun i hi => absurd hi (Nat.not_lt_zero i), fun i _ hi => helem i hi,
        fun p _ => rfl⟩
      have hex : FS.existsAt fs (localPath f) = false := by
        rw [FS.existsAt, hdest]; rfl
      simp [downloadAll, hoc, download_file, hex]
    | failMid w =>
      refine ⟨FS.unlink (FS.write fs (localPath f) w) (localPath f), ?_, ?_, ?_, ?_⟩
      · have hex : FS.existsAt (FS.write fs (localPath f) w) (localPath f) = true := by
          rw [FS.existsAt, FS.write_self]; rfl
        simp [downloadAll, hoc, download_file, hex]
      · exact fun i hi => absurd hi (Nat.not_lt_zero i)
      · intro i _ hi
        cases i with
        | zero =>
          show FS.unlink (FS.write fs (localPath f) w) (localPath f) (localPath f) = none
          rw [FS.unlink_self]
        | succ i2 =>
          have hi2 : i2 < rest.length := by simpa using hi
          have hmem2 : localPath (rest.getD i2 "") ∈ rest.map localPath := by
            rw [List.getD_eq_getElem _ _ hi2]
            exact List.mem_map_of_mem localPath (List.getElem_mem hi2)
          have hne2 : localPath (rest.getD i2 "") ≠ localPath f :=
            fun hcon => hdmem (hcon ▸ hmem2)
          rw [List.getD_cons_succ, FS.unlink_other _ hne2, FS.write_other _ hne2]
          exact helem (i2 + 1) hi
      · intro p hp
        have hpne : p ≠ localPath f := by
          intro hcon
          exact hp (hcon ▸ List.mem_map_of_mem localPath (List.mem_cons_self f rest))
        rw [FS.unlink_other _ hpne, FS.write_other _ hpne]
  | f :: rest, fs, oc, j, k + 1, hpaths, hne, hk, hsucc, hfail => by
    have h0 : (oc j).fails = false := by simpa using hsucc 0 (Nat.succ_pos k)
    have hdmem : localPath f ∉ rest.map localPath := by
      rw [List.map_cons, List.nodup_cons] at hpaths
      exact hpaths.1
    have hptail : (rest.map localPath).Nodup := by
      rw [List.map_cons, List.nodup_cons] at hpaths
      exact hpaths.2
    cases hoc : oc j with
    | failEarly => rw [hoc] at h0; simp [Outcome.fails] at h0
    | failMid w => rw [hoc] at h0; simp [Outcome.fails] at h0
    | success c =>
      have hne1 : ∀ f2 ∈ rest, FS.write fs (localPath f) c (localPath f2) = none := by
        intro f2 hf2
        have : localPath f2 ≠ localPath f :=
          fun hcon => hdmem (hcon ▸ List.mem_map_of_mem localPath hf2)
        rw [FS.write_other _ this]
        exact hne f2 (List.mem_cons_of_mem f hf2)
      obtain ⟨fs2, heq, hA, hB, hC⟩ := downloadAll_fail rest (FS.write fs (localPath f) c) oc
        (j + 1) k hptail hne1 (by simpa using hk)
        (fun i hi => by
          have h2 := hsucc (i + 1) (Nat.succ_lt_succ hi)
          rwa [show j + (i + 1) = j + 1 + i by omega] at h2)
        (by rwa [show j + 1 + k = j + (k + 1) by omega])
      refine ⟨fs2, ?_, ?_, ?_, ?_⟩
      · simp only [downloadAll, hoc, download_file]
        rw [heq]
        simp
      · intro i hi
        cases i with
        | zero =>
          show (fs2 (localPath f)).isSome = true
          rw [hC _ hdmem, FS.write_self]
          rfl
        | succ i2 =>
          rw [List.getD_cons_succ]
          exact hA i2 (by omega)
      · intro i hki hi
        cases i with
        | zero => exact absurd hki (by omega)
        | succ i2 =>
          rw [List.getD_cons_succ]
          exact hB i2 (by omega) (by simpa using hi)
      · intro p hp
        have hpne : p ≠ localPath f := by
          intro hcon
          exact hp (hcon ▸ List.mem_map_of_mem localPath (List.mem_cons_self f rest))
        have hpnr : p ∉ rest.map localPath := by
          intro hcon
          exact hp (List.mem_cons_of_mem _ hcon)
        rw [hC p hpnr, FS.write_other _ hpne]

theorem layoutPath_inj {f g : String} (h : layoutPath f = layoutPath g) : f = g := by
  have hd := congrArg String.data h
  simp only [layoutPath, String.data_append] at hd
  have hlen := congrArg List.length hd
  simp only [List.length_append, pySlice, List.length_take, List.length_drop] at hlen
  rw [show ("/data/" : String).data.length = 6 from rfl,
    show ("_" : String).data.length = 1 from rfl,
    show ("/" : String).data.length = 1 from rfl] at hlen
  have hflen : f.data.length = g.data.length := by omega
  have := (List.append_inj' hd hflen).2
  exact String.ext this

/- ### Remaining helper lemmas -/

theorem sync_once_download {fs : FS} {pages : List ListingPage} {oc : Nat → Outcome}
    (hre : ¬ (fetch_remote_files pages).isEmpty = true)
    (hmi : ¬ (determine_missing_files fs (fetch_remote_files pages)).isEmpty = true) :
    sync_once fs pages oc
      = downloadAll fs (determine_missing_files fs (fetch_remote_files pages)) oc 0 := by
  simp [sync_once, hre, hmi]

theorem parseFiles_eq_spec : ∀ c : List (Option String), parseFiles c = parseFilesSpec c
  | [] => rfl
  | none :: rest => by
    simp only [parseFiles, parseFilesSpec, List.filterMap_cons, Option.bind]
    exact parseFiles_eq_spec rest
  | some key :: rest => by
    have ih := parseFiles_eq_spec rest
    simp only [parseFiles, parseFilesSpec, List.filterMap_cons, Option.some_bind]
    by_cases h1 : key.data = []
    · simp [h1, ih, parseFilesSpec]
    · by_cases h2 : endsWithPy key ".nc" = true
      · by_cases h3 : startsWithPy key RESOURCE_PREFIX = true
        · simp [h1, h2, h3, ih, parseFilesSpec]
        · simp [h1, h2, h3, ih, parseFilesSpec]
      · simp [h1, h2, ih, parseFilesSpec]

/- ### Claim theorems -/

/-- C1: whenever `download_file` is called on a filename whose destination
path did not previously exist and the transfer fails at any point (network
error, non-success status, or a write error after zero or more bytes were
written), the call raises and no file exists at the destination path
afterwards. -/
theorem download_file_failure_removes_new_file (fs : FS) (f : String) (o : Outcome)
    (hpre : fs (localPath f) = none) (hfail : o.fails = true) :
    (download_file fs f o).2 = false ∧ (download_file fs f o).1 (localPath f) = none := by
  cases o with
  | success c => simp [Outcome.fails] at hfail
  | failEarly =>
    have hex : FS.existsAt fs (localPath f) = false := by
      rw [FS.existsAt, hpre]
      rfl
    exact ⟨by simp [download_file], by simp [download_file, hex, hpre]⟩
  | failMid w =>
    have hex : FS.existsAt (FS.write fs (localPath f) w) (localPath f) = true := by
      rw [FS.existsAt, FS.write_self]
      rfl
    exact ⟨by simp [download_file], by simp [download_file, hex, FS.unlink_self]⟩

/-- Witness for C1 at a concrete input: a transfer of `nwp_2024010100.nc`
onto an empty filesystem that fails after one byte leaves nothing at the
destination. -/
theorem download_file_failure_removes_new_file_witness :
    emptyFS (localPath "nwp_2024010100.nc") = none
    ∧ Outcome.fails (Outcome.failMid [7]) = true
    ∧ (download_file emptyFS "nwp_2024010100.nc" (Outcome.failMid [7])).2 = false
    ∧ (download_file emptyFS "nwp_2024010100.nc" (Outcome.failMid [7])).1
        (localPath "nwp_2024010100.nc") = none :=
  ⟨rfl, rfl,
    (download_file_failure_removes_new_file emptyFS "nwp_2024010100.nc" (Outcome.failMid [7])
      rfl rfl).1,
    (download_file_failure_removes_new_file emptyFS "nwp_2024010100.nc" (Outcome.failMid [7])
      rfl rfl).2⟩

/-- C10: whenever `download_file` is called on a filename whose destination
path already exists and the transfer fails at any point, the error-cleanup
branch deletes the file at the destination path — cleanup is not
state-restoring, a failed re-download removes the pre-existing file. -/
theorem download_file_failure_deletes_preexisting (fs : FS) (f : String) (o : Outcome)
    (hpre : (fs (localPath f)).isSome = true) (hfail : o.fails = true) :
    (download_file fs f o).2 = false ∧ (download_file fs f o).1 (localPath f) = none := by
  cases o with
  | success c => simp [Outcome.fails] at hfail
  | failEarly =>
    have hex : FS.existsAt fs (localPath f) = true := hpre
    exact ⟨by simp [download_file], by simp [download_file, hex, FS.unlink_self]⟩
  | failMid w =>
    have hex : FS.existsAt (FS.write fs (localPath f) w) (localPath f) = true := by
      rw [FS.existsAt, FS.write_self]
      rfl
    exact ⟨by simp [download_file], by simp [download_file, hex, FS.unlink_self]⟩

/-- Witness for C10 at a concrete input: with a complete file already at
the destination, a transfer that fails before even opening the
destination still deletes the pre-existing file. -/
theorem download_file_failure_deletes_preexisting_witness :
    ((FS.write emptyFS (localPath "nwp_2024010100.nc") [1, 2])
        (localPath "nwp_2024010100.nc")).isSome = true
    ∧ Outcome.fails Outcome.failEarly = true
    ∧ (download_file (FS.write emptyFS (localPath "nwp_2024010100.nc") [1, 2])
        "nwp_2024010100.nc" Outcome.failEarly).2 = false
    ∧ (download_file (FS.write emptyFS (localPath "nwp_2024010100.nc") [1, 2])
        "nwp_2024010100.nc" Outcome.failEarly).1 (localPath "nwp_2024010100.nc") = none :=
  ⟨by decide, rfl,
    (download_file_failure_deletes_preexisting _ "nwp_2024010100.nc" Outcome.failEarly
      (by decide) rfl).1,
    (download_file_failure_deletes_preexisting _ "nwp_2024010100.nc" Outcome.failEarly
      (by decide) rfl).2⟩

/-- C6: for every listing-page body, the parsed filenames are exactly the
entries whose key is present and non-empty, ends with `.nc` and starts
with the resource prefix, stripped to the part after the last slash, in
page order — entries with a missing or empty key are silently skipped. -/
theorem parse_listing_files_exact (page : ListingPage) :
    (parse_listing page).1 = parseFilesSpec page.contents := by
  rw [parse_listing_fst]
  exact parseFiles_eq_spec page.contents

/-- C7: on any catalog of well-formed remote filenames, the local-state
diff returns exactly the subsequence of filenames whose layout path
`/data/<year>_<month>/<filename>` (year = characters 4–7, month =
characters 8–9) does not exist, preserving the catalog's order. -/
theorem determine_missing_files_exact (fs : FS) (catalog : List String)
    (hgood : ∀ f ∈ catalog, goodName f) :
    determine_missing_files fs catalog
      = catalog.filter (fun f => ! FS.existsAt fs (layoutPath f))
    ∧ (determine_missing_files fs catalog).Sublist catalog := by
  constructor
  · rw [determine_missing_eq_filter]
    refine List.filter_congr ?_
    intro x hx
    rw [localPath_eq_layoutPath (hgood x hx)]
  · rw [determine_missing_eq_filter]
    exact List.filter_sublist catalog

/-- Witness for C7 at a concrete input: a one-file catalog over the empty
filesystem. -/
theorem determine_missing_files_exact_witness :
    (∀ f ∈ ["nwp_2024010100.nc"], goodName f)
    ∧ determine_missing_files emptyFS ["nwp_2024010100.nc"]
        = (["nwp_2024010100.nc"] : List String).filter
            (fun f => ! FS.existsAt emptyFS (layoutPath f))
    ∧ (determine_missing_files emptyFS ["nwp_2024010100.nc"]).Sublist ["nwp_2024010100.nc"] :=
  have hg : ∀ f ∈ ["nwp_2024010100.nc"], goodName f := by
    intro f hf
    rw [List.mem_singleton.mp hf]
    exact ⟨by decide, by decide⟩
  ⟨hg, (determine_missing_files_exact emptyFS ["nwp_2024010100.nc"] hg).1,
    (determine_missing_files_exact emptyFS ["nwp_2024010100.nc"] hg).2⟩

/-- C8: a listing page whose truncation flag is `"false"` or absent yields
no continuation token, regardless of any token field in the body. -/
theorem parse_listing_not_truncated_no_token (c : List (Option String)) (tok : Option String) :
    (parse_listing ⟨c, some "false", tok⟩).2 = none
    ∧ (parse_listing ⟨c, none, tok⟩).2 = none :=
  ⟨rfl, rfl⟩

/-- C9: a listing page claiming truncation but carrying no continuation
token yields no token, so the fetcher stops pagination after that page
(later server responses are never consumed) rather than failing fast. -/
theorem truncated_without_token_stops (c : List (Option String)) (rest : List ListingPage) :
    (parse_listing ⟨c, some "true", none⟩).2 = none
    ∧ fetch_remote_files (⟨c, some "true", none⟩ :: rest)
        = fetch_remote_files [⟨c, some "true", none⟩] :=
  ⟨rfl, rfl⟩

/-- C5 (amended): for every sequence of listing pages whose parsed
filenames, concatenated, are duplicate-free, the catalog returned by
`fetch_remote_files` is sorted strictly descending lexicographically and
contains no duplicate filenames.  (The original claim assumed only that
the keys are duplicate-free; distinct keys can share one base name, which
yields duplicates — see the counterexample.) -/
theorem fetch_remote_files_sorted_nodup (pages : List ListingPage)
    (h : (fetchPages pages).Nodup) :
    (fetch_remote_files pages).Pairwise (fun a b : String => lexLe a.data b.data = false)
    ∧ (fetch_remote_files pages).Nodup :=
  ⟨sortDesc_strict h, ((sortDesc_perm (fetchPages pages)).symm).nodup h⟩

/-- Witness for the amended C5 at a concrete input: a single page with two
distinct base names. -/
theorem fetch_remote_files_sorted_nodup_witness :
    (fetchPages scenarioPages).Nodup
    ∧ ((fetch_remote_files scenarioPages).Pairwise
          (fun a b : String => lexLe a.data b.data = false)
        ∧ (fetch_remote_files scenarioPages).Nodup) :=
  ⟨by decide, fetch_remote_files_sorted_nodup scenarioPages (by decide)⟩

/-- Counterexample to C5 as stated: the two keys of `dupKeyPage` are
distinct (their union is duplicate-free), both match the prefix/extension
filter, and both strip to the base name `nwp_2024010100.nc`; the returned
catalog contains that filename twice, so it has duplicates and is not
strictly descending. -/
theorem fetch_remote_files_dup_counterexample :
    ("resources/nwp-v1-1h-2500m/filelisting/nwp_2024010100.nc" : String)
        ≠ "resources/nwp-v1-1h-2500m/filelisting/extra/nwp_2024010100.nc"
    ∧ fetch_remote_files [dupKeyPage] = ["nwp_2024010100.nc", "nwp_2024010100.nc"]
    ∧ ¬ (fetch_remote_files [dupKeyPage]).Nodup :=
  ⟨by decide, by decide, by decide⟩

/-- C2: if a sync pass completes successfully, the diff recomputed on the
resulting filesystem against the same catalog is empty, and re-running the
pass (whatever the transfer behaviour of the re-run would be) downloads
nothing and returns an empty result, leaving the filesystem unchanged. -/
theorem sync_once_idempotent (fs : FS) (pages : List ListingPage) (oc oc2 : Nat → Outcome)
    (l : List String) (h : (sync_once fs pages oc).2 = some l) :
    determine_missing_files ((sync_once fs pages oc).1) (fetch_remote_files pages) = []
    ∧ sync_once ((sync_once fs pages oc).1) pages oc2
        = ((sync_once fs pages oc).1, some []) := by
  by_cases hre : (fetch_remote_files pages).isEmpty = true
  · have hs : sync_once fs pages oc = (fs, some []) := by
      simp [sync_once, hre]
    rw [hs]
    constructor
    · rw [List.isEmpty_iff.mp hre]
      rfl
    · simp [sync_once, hre]
  · by_cases hmi : (determine_missing_files fs (fetch_remote_files pages)).isEmpty = true
    · have hs : sync_once fs pages oc = (fs, some []) := by
        simp [sync_once, hre, hmi]
      rw [hs]
      refine ⟨List.isEmpty_iff.mp hmi, ?_⟩
      simp [sync_once, hre, hmi]
    · cases hda : downloadAll fs (determine_missing_files fs (fetch_remote_files pages)) oc 0 with
      | mk fs2 o2 =>
        have hs : sync_once fs pages oc = (fs2, o2) := (sync_once_download hre hmi).trans hda
        rw [hs] at h
        simp only at h
        subst h
        obtain ⟨hl, hmem, hmono⟩ := downloadAll_some _ fs oc 0 fs2 l hda
        have hempty : determine_missing_files fs2 (fetch_remote_files pages) = [] := by
          rw [determine_missing_eq_filter, List.filter_eq_nil_iff]
          intro f hf
          have hsome : (fs2 (localPath f)).isSome = true := by
            by_cases hfs : (fs (localPath f)).isSome = true
            · exact hmono _ hfs
            · exact hmem f (mem_determine_missing.mpr
                ⟨hf, by rw [Bool.not_eq_true] at hfs; exact hfs⟩)
          simp [FS.existsAt, hsome]
        rw [hs]
        refine ⟨hempty, ?_⟩
        have hmi2 : (determine_missing_files fs2 (fetch_remote_files pages)).isEmpty = true := by
          rw [hempty]
          rfl
        simp [sync_once, hre, hmi2]

/-- Witness for C2 at a concrete input: syncing the two-file scenario onto
an empty filesystem succeeds; afterwards the diff is empty and a re-run
(here with transfers that would fail) still returns an empty result. -/
theorem sync_once_idempotent_witness :
    (sync_once emptyFS scenarioPages allOk).2 = some ["nwp_2024010100.nc", "nwp_2023120100.nc"]
    ∧ determine_missing_files ((sync_once emptyFS scenarioPages allOk).1)
        (fetch_remote_files scenarioPages) = []
    ∧ sync_once ((sync_once emptyFS scenarioPages allOk).1) scenarioPages okThenFail
        = ((sync_once emptyFS scenarioPages allOk).1, some []) :=
  ⟨by decide,
    (sync_once_idempotent emptyFS scenarioPages allOk okThenFail
      ["nwp_2024010100.nc", "nwp_2023120100.nc"] (by decide)).1,
    (sync_once_idempotent emptyFS scenarioPages allOk okThenFail
      ["nwp_2024010100.nc", "nwp_2023120100.nc"] (by decide)).2⟩

/-- C3: when no transfer fails, the sync pass returns exactly the diff
list, in the diff's (descending, newest-first) order, and each diff entry
ends up at its destination path; moreover the two scenario filenames map
to `/data/2024_01/...` and `/data/2023_12/...` as the claim states. -/
theorem sync_pass_downloads_diff_in_order :
    (∀ (fs : FS) (pages : List ListingPage) (oc : Nat → Outcome),
      (∀ i, i < (syncMissing fs pages).length → (oc i).fails = false) →
      (sync_once fs pages oc).2 = some (syncMissing fs pages)
      ∧ (∀ f ∈ syncMissing fs pages, ((sync_once fs pages oc).1 (localPath f)).isSome = true))
    ∧ localPath "nwp_2024010100.nc" = "/data/2024_01/nwp_2024010100.nc"
    ∧ localPath "nwp_2023120100.nc" = "/data/2023_12/nwp_2023120100.nc" := by
  refine ⟨?_, by decide, by decide⟩
  intro fs pages oc h
  by_cases hre : (fetch_remote_files pages).isEmpty = true
  · have hm : syncMissing fs pages = [] := by
      show determine_missing_files fs (fetch_remote_files pages) = []
      rw [List.isEmpty_iff.mp hre]
      rfl
    have hs : sync_once fs pages oc = (fs, some []) := by
      simp [sync_once, hre]
    rw [hs, hm]
    exact ⟨rfl, by simp⟩
  · by_cases hmi : (determine_missing_files fs (fetch_remote_files pages)).isEmpty = true
    · have hm : syncMissing fs pages = [] := List.isEmpty_iff.mp hmi
      have hs : sync_once fs pages oc = (fs, some []) := by
        simp [sync_once, hre, hmi]
      rw [hs, hm]
      exact ⟨rfl, by simp⟩
    · obtain ⟨fs2, heq⟩ := downloadAll_success (syncMissing fs pages) fs oc 0
        (fun i hi => by simpa using h i hi)
      have hs : sync_once fs pages oc = (fs2, some (syncMissing fs pages)) :=
        (sync_once_download hre hmi).trans heq
      rw [hs]
      exact ⟨rfl, (downloadAll_some _ fs oc 0 fs2 _ heq).2.1⟩

/-- Witness for C3 at the claim's concrete input: remote catalog
`["nwp_2024010100.nc", "nwp_2023120100.nc"]`, empty local directory, all
transfers succeeding. -/
theorem sync_pass_downloads_diff_in_order_witness :
    (∀ i, i < (syncMissing emptyFS scenarioPages).length → (allOk i).fails = false)
    ∧ (sync_once emptyFS scenarioPages allOk).2 = some (syncMissing emptyFS scenarioPages)
    ∧ syncMissing emptyFS scenarioPages = ["nwp_2024010100.nc", "nwp_2023120100.nc"] :=
  ⟨fun _ _ => rfl,
    (sync_pass_downloads_diff_in_order.1 emptyFS scenarioPages allOk (fun _ _ => rfl)).1,
    by decide⟩

/-- C4 (amended): when the diff has no duplicate filenames and the k-th
transfer is the first to fail, the pass aborts with the error, every file
downloaded before index k is still on disk, and the destinations of the
failing file and of every later diff entry do not exist (in particular the
failing destination is not left truncated).  (The original claim, over
every diff, fails when the diff repeats one filename — see the
counterexample.) -/
theorem sync_pass_failure_aborts (fs : FS) (pages : List ListingPage) (oc : Nat → Outcome)
    (k : Nat)
    (hnd : (syncMissing fs pages).Nodup)
    (hk : k < (syncMissing fs pages).length)
    (hsucc : ∀ i, i < k → (oc i).fails = false)
    (hfail : (oc k).fails = true) :
    (sync_once fs pages oc).2 = none
    ∧ (∀ i, i < k →
        ((sync_once fs pages oc).1 (localPath ((syncMissing fs pages).getD i ""))).isSome = true)
    ∧ (∀ i, k ≤ i → i < (syncMissing fs pages).length →
        (sync_once fs pages oc).1 (localPath ((syncMissing fs pages).getD i "")) = none) := by
  have hgood : ∀ f ∈ syncMissing fs pages, goodName f := fun f hf =>
    fetch_remote_files_good (mem_determine_missing.mp hf).1
  have hpaths : ((syncMissing fs pages).map localPath).Nodup :=
    hnd.map_on (fun x hx y hy hxy => layoutPath_inj (by
      rw [← localPath_eq_layoutPath (hgood x hx), ← localPath_eq_layoutPath (hgood y hy)]
      exact hxy))
  have hne : ∀ f ∈ syncMissing fs pages, fs (localPath f) = none := by
    intro f hf
    have h2 := (mem_determine_missing.mp hf).2
    rw [FS.existsAt] at h2
    exact Option.not_isSome_iff_eq_none.mp (by rw [Bool.not_eq_true]; exact h2)
  have hmi : ¬ (determine_missing_files fs (fetch_remote_files pages)).isEmpty = true := by
    intro hcon
    have hm : syncMissing fs pages = [] := List.isEmpty_iff.mp hcon
    rw [hm] at hk
    exact absurd hk (by simp)
  have hre : ¬ (fetch_remote_files pages).isEmpty = true := by
    intro hcon
    have hm : syncMissing fs pages = [] := by
      show determine_missing_files fs (fetch_remote_files pages) = []
      rw [List.isEmpty_iff.mp hcon]
      rfl
    rw [hm] at hk
    exact absurd hk (by simp)
  obtain ⟨fs2, heq, hA, hB, hC⟩ := downloadAll_fail (syncMissing fs pages) fs oc 0 k hpaths hne
    hk (fun i hi => by simpa using hsucc i hi) (by simpa using hfail)
  have hs : sync_once fs pages oc = (fs2, none) := (sync_once_download hre hmi).trans heq
  rw [hs]
  exact ⟨rfl, hA, hB⟩

/-- Witness for the amended C4 at a concrete input: two distinct missing
files, the first transfer succeeds, the second fails; the pass aborts, the
first file is on disk, the second destination does not exist. -/
theorem sync_pass_failure_aborts_witness :
    (syncMissing emptyFS scenarioPages).Nodup
    ∧ 1 < (syncMissing emptyFS scenarioPages).length
    ∧ (∀ i, i < 1 → (okThenFail i).fails = false)
    ∧ (okThenFail 1).fails = true
    ∧ (sync_once emptyFS scenarioPages okThenFail).2 = none
    ∧ ((sync_once emptyFS scenarioPages okThenFail).1
        (localPath ((syncMissing emptyFS scenarioPages).getD 0 ""))).isSome = true
    ∧ (sync_once emptyFS scenarioPages okThenFail).1
        (localPath ((syncMissing emptyFS scenarioPages).getD 1 "")) = none := by
  have hsucc : ∀ i, i < 1 → (okThenFail i).fails = false := by
    intro i hi
    have h0 : i = 0 := by omega
    subst h0
    rfl
  refine ⟨by decide, by decide, hsucc, by decide, ?_, ?_, ?_⟩
  · exact (sync_pass_failure_aborts emptyFS scenarioPages okThenFail 1
      (by decide) (by decide) hsucc (by decide)).1
  · exact (sync_pass_failure_aborts emptyFS scenarioPages okThenFail 1
      (by decide) (by decide) hsucc (by decide)).2.1 0 (by decide)
  · exact (sync_pass_failure_aborts emptyFS scenarioPages okThenFail 1
      (by decide) (by decide) hsucc (by decide)).2.2 1 (by decide) (by decide)

/-- Counterexample to C4 as stated: with the duplicate-basename catalog of
`dupKeyPage` the diff repeats `nwp_2024010100.nc`; the first transfer
succeeds (writing the file) and the second fails, whereupon the cleanup
deletes the very file the first transfer had downloaded — so a file
downloaded earlier in the pass does not remain on disk. -/
theorem sync_pass_failure_counterexample :
    syncMissing emptyFS [dupKeyPage] = ["nwp_2024010100.nc", "nwp_2024010100.nc"]
    ∧ (okThenFail 0).fails = false
    ∧ (okThenFail 1).fails = true
    ∧ (sync_once emptyFS [dupKeyPage] okThenFail).2 = none
    ∧ (sync_once emptyFS [dupKeyPage] okThenFail).1 (localPath "nwp_2024010100.nc") = none :=
  ⟨by decide, by decide, by decide, by decide, by decide⟩
